import Mathlib

/-!
Verification of the stream-charts raster chart engine.

The definitions below are a shallow embedding of the repository's code:
`RasterChart.tsx` (interaction handlers, scale construction, the
enter/update/exit reconciliation of `updatePlot`) and `margins.ts`
(`adjustedDimensions`).  JavaScript numbers are modelled as rationals.
The modules `timeRange.ts` and `barMagnifier.ts` are imported by
`RasterChart.tsx` but their sources are not part of the repository
snapshot; their operations are modelled from the specification, and each
such definition is marked `Modelled from the spec:` in its doc comment.
-/

namespace StreamCharts

/-- Margin information, from `margins.ts` (`interface Margin`). -/
structure Margin where
  top : ℚ
  right : ℚ
  bottom : ℚ
  left : ℚ
deriving DecidableEq

/-- Inner plot dimensions, the return value of `adjustedDimensions`. -/
structure PlotDims where
  width : ℚ
  height : ℚ
deriving DecidableEq

/-- From `margins.ts`: subtracts the margins from the overall dimensions. -/
def adjustedDimensions (width height : ℚ) (margins : Margin) : PlotDims :=
  { width := width - margins.left - margins.right
    height := height - margins.top - margins.bottom }

/-- One observation, from `datumSeries.ts` (`Datum`): a `{time, value}` pair. -/
structure Datum where
  time : ℚ
  value : ℚ
deriving DecidableEq

/-- A named, time-ordered sequence of datums, from `datumSeries.ts` (`Series`). -/
structure Series where
  name : String
  data : List Datum
deriving DecidableEq

/-- The visible time window, from `timeRange.ts` (`TimeRange`):
`{ start: number, end: number }` with invariant `start <= end`. -/
structure TimeRange where
  start : ℚ
  «end» : ℚ
deriving DecidableEq

/-- Modelled from the spec: `timeRange.ts` is not in the repository snapshot.
`scale(factor, pivot)` rescales the window width by `1/factor` centered at
`pivot`, keeping the pivot-relative ratio of the left and right spans. -/
def TimeRange.scale (r : TimeRange) (factor pivot : ℚ) : TimeRange :=
  { start := pivot - (pivot - r.start) / factor
    «end» := pivot + (r.«end» - pivot) / factor }

/-- Modelled from the spec: `timeRange.ts` is not in the repository snapshot.
`translate(deltaTime)` shifts both bounds by the same delta. -/
def TimeRange.translate (r : TimeRange) (dt : ℚ) : TimeRange :=
  { start := r.start + dt, «end» := r.«end» + dt }

/-- Width of the visible window. -/
def TimeRange.width (r : TimeRange) : ℚ := r.«end» - r.start

/-- One pan/zoom step as delivered to the interaction controller:
either a cumulative zoom factor with a time pivot (`onZoom` calls
`timeRange.scale(transform.k, time)`), or a time shift (`onPan` calls
`timeRange.translate(-deltaTime)`). -/
inductive RangeOp where
  | scaleOp (k pivot : ℚ)
  | translateOp (dt : ℚ)

/-- Applies one interaction step to the current time range. -/
def applyRangeOp (r : TimeRange) : RangeOp → TimeRange
  | .scaleOp k pivot => r.scale k pivot
  | .translateOp dt => r.translate dt

/-- The zoom gesture's factor is clamped by the chart's
`scaleExtent([0, 10])` (RasterChart.tsx line 582); pans are unrestricted. -/
def validRangeOp : RangeOp → Prop
  | .scaleOp k _ => 0 ≤ k ∧ k ≤ 10
  | .translateOp _ => True

instance : DecidablePred validRangeOp := fun op => by
  cases op <;> simp [validRangeOp] <;> infer_instance

/-- The d3 linear time scale built in `updatePlot` (lines 595-598):
domain `[timeRange.start, timeRange.end]`, range `[0, plotWidth]`. -/
def xScaleMap (r : TimeRange) (plotWidth t : ℚ) : ℚ :=
  (t - r.start) * plotWidth / (r.«end» - r.start)

/-- The inverse of the d3 linear time scale (`scale.invert`). -/
def xScaleInvert (r : TimeRange) (plotWidth p : ℚ) : ℚ :=
  r.start + p * (r.«end» - r.start) / plotWidth

/-- From `RasterChart.tsx` `onPan` (lines 210-217): converts the pixel drag
delta into a time delta through the current scale and its inverse, then
translates the time range by the negated delta. -/
def onPan (r : TimeRange) (plotWidth deltaX : ℚ) : TimeRange :=
  let x := xScaleMap r plotWidth r.start
  let deltaTime := xScaleInvert r plotWidth (x + deltaX) - r.start
  r.translate (-deltaTime)

/-- The output of the bar-magnifier lens, from `barMagnifier.ts`
(`LensTransformation`): a transformed x-coordinate and the local
magnification factor. -/
structure LensTransformation where
  xPrime : ℚ
  magnification : ℚ
deriving DecidableEq

/-- Modelled from the spec: `barMagnifier.ts` is not in the repository
snapshot.  `BarMagnifier(radius, power, center).magnify(x)` maps the focal
point `center` to itself with magnification `power`, maps the lens edges
`center ± radius` to themselves with magnification `1` (continuously), and
displaces intermediate points outward with a smooth, non-linear
(reciprocal-style) magnification decaying monotonically from `power` to `1`
with the distance from the focus. -/
def magnify (radius power center x : ℚ) : LensTransformation :=
  let dx := x - center
  let dd := |dx|
  if radius ≤ dd then { xPrime := x, magnification := 1 }
  else
    let m := power * radius / (radius + (power - 1) * dd)
    { xPrime := center + dx * m, magnification := m }

/-- The d3 band scale keeps the first occurrence of each domain value in
insertion order (duplicates are dropped). -/
def dedupFirst : List String → List String
  | [] => []
  | a :: l => a :: (dedupFirst l).filter (fun b => b ≠ a)

/-- The d3 band scale with zero padding over the given domain and the range
`[0, rangeEnd]`: the `i`-th distinct domain value is placed at
`i * rangeEnd / n`; a value not in the domain has no position. -/
def bandScale (domain : List String) (rangeEnd : ℚ) (name : String) : Option ℚ :=
  let d := dedupFirst domain
  if name ∈ d then some (rangeEnd * (d.indexOf name : ℚ) / (d.length : ℚ)) else none

/-- From `RasterChart.tsx` `spikeLineHeight` (lines 336-338): the plot height
divided by the number of series. -/
def spikeLineHeight (plotHeight : ℚ) (seriesCount : ℕ) : ℚ :=
  plotHeight / (seriesCount : ℚ)

/-- The `yScale` built in `updatePlot` (lines 601-604): a band scale whose
domain is the names of the current `seriesList`, in list order, and whose
range is `[0, lineHeight * seriesList.length - margin.top]`. -/
def yScaleOf (seriesList : List Series) (plotHeight marginTop : ℚ) (name : String) : Option ℚ :=
  bandScale (seriesList.map Series.name)
    (spikeLineHeight plotHeight seriesList.length * (seriesList.length : ℚ) - marginTop) name

/-- Streaming update: appends further datums to each series without touching
the series names or their order. -/
def streamAppend (seriesList : List Series) (more : String → List Datum) : List Series :=
  seriesList.map (fun s => { name := s.name, data := s.data ++ more s.name })

/-- The "in view" predicate used by the data join in `updatePlot` (line 669):
`datum.time >= timeRange.start && datum.time <= timeRange.end`. -/
def inTimeRange (r : TimeRange) (d : Datum) : Bool :=
  decide (r.start ≤ d.time) && decide (d.time ≤ r.«end»)

/-- The d3 data join by index, as `updatePlot` performs it per series
(lines 665-706): elements at indices below `min(old, new)` are kept and
rebound to the new datum (update), placeholders for the remaining new
datums get fresh elements appended (enter), and old elements beyond the
new data's length are removed (exit). The result is the list of datums
bound to the elements present after the pass. -/
def reconcile (oldElems newData : List Datum) : List Datum :=
  let update := (List.zip oldElems newData).map Prod.snd
  let enter := newData.drop oldElems.length
  update ++ enter

/-- The per-series reconciliation of `updatePlot`: the data bound to the
series' line primitives is the series' data filtered by the "in view"
predicate, joined by index against the previously rendered elements. -/
def updateSeries (prev : List Datum) (r : TimeRange) (s : Series) : List Datum :=
  reconcile prev (s.data.filter (fun d => inTimeRange r d))

/-- The scene produced by one `updatePlot` pass: the axes (created on the
first pass, lines 607-656, or redrawn in place on later passes, lines
658-663) and, per series, the datums whose line primitives are present
after the enter/update/exit reconciliation. -/
structure Scene where
  xAxisDrawn : Bool
  yAxisDrawn : Bool
  spikes : List (String × List Datum)
deriving DecidableEq

/-- From `RasterChart.tsx` `updatePlot` (lines 465-708): redraws the axes and
reconciles every series' line primitives against the current time range.
`prev` gives the datums rendered for a series name by the previous pass. -/
def updatePlot (prev : String → List Datum) (r : TimeRange) (seriesList : List Series) : Scene :=
  { xAxisDrawn := true
    yAxisDrawn := true
    spikes := seriesList.map (fun s => (s.name, updateSeries (prev s.name) r s)) }

/-- A tooltip primitive appended by `handleShowTooltip`: the background
rectangle (line 240) or one of the two text elements (lines 252, 264). -/
inductive TooltipPrim where
  | rect
  | text
deriving DecidableEq

/-- The runtime tooltip state: the current value of the mutable
`tooltipRef` visibility flag (read by the handlers at call time) and the
tooltip primitives currently in the scene. -/
structure TooltipUI where
  visible : Bool
  prims : List TooltipPrim
deriving DecidableEq

/-- Toggling `tooltip.visible` at runtime: `updatePlot` writes the current
configuration into `tooltipRef` (line 466), which the handlers dereference
on every invocation. -/
def setTooltipVisible (b : Bool) (s : TooltipUI) : TooltipUI :=
  { s with visible := b }

/-- From `RasterChart.tsx` `handleShowTooltip` (lines 225-300): invoked on
`mouseover` of a spike. Returns immediately when the current
`tooltipRef.current.visible` is false; otherwise appends the background
rectangle and the two text elements (series name, and time/value). -/
def handleShowTooltip (s : TooltipUI) : TooltipUI :=
  if s.visible then
    { s with prims := s.prims ++ [TooltipPrim.rect, TooltipPrim.text, TooltipPrim.text] }
  else s

/-- From `RasterChart.tsx` `handleHideTooltip` (lines 346-355): invoked on
`mouseleave` of a spike. When the current `tooltipRef.current.visible` is
true, removes every element of class `tooltip`. -/
def handleHideTooltip (s : TooltipUI) : TooltipUI :=
  if s.visible then { s with prims := [] } else s

/-- From `RasterChart.tsx` `mouseInPlotArea` (lines 456-459): the pointer is
inside the plot area iff all four margin comparisons are strict. -/
def mouseInPlotArea (m : Margin) (width height x y : ℚ) : Bool :=
  decide (m.left < x) && decide (x < width - m.right) &&
    decide (m.top < y) && decide (y < height - m.bottom)

/-- From `handleShowTracker` (lines 439-448): the tracker line's opacity is
`1` when the mouse is in the plot area and `0` otherwise. -/
def trackerOpacity (m : Margin) (width height x y : ℚ) : ℚ :=
  if mouseInPlotArea m width height x y then 1 else 0

/-- From `handleShowMagnify` (lines 389-397): the magnifier lens rectangle's
opacity is `1` when the mouse is in the plot area and `0` otherwise. -/
def magnifierOpacity (m : Margin) (width height x y : ℚ) : ℚ :=
  if mouseInPlotArea m width height x y then 1 else 0

/-- Grid-line vertical placement (lines 650-651):
`(yScale(d) || 0) + margin.top + lineHeight / 2`, where an undefined band
lookup defaults to `0`. -/
def gridLineY (pos : Option ℚ) (marginTop lineHeight : ℚ) : ℚ :=
  pos.getD 0 + marginTop + lineHeight / 2

/-- Spike upper endpoint (lines 673, 682): `(yScale(series.name) || 0)`
plus the spikes-style margin, defaulting an undefined band lookup to `0`. -/
def spikeY1 (pos : Option ℚ) (spikesMargin : ℚ) : ℚ :=
  pos.getD 0 + spikesMargin

/-- Spike lower endpoint (lines 673, 683):
`(yScale(series.name) || 0) + lineHeight - spikesStyle.margin`. -/
def spikeY2 (pos : Option ℚ) (lineHeight spikesMargin : ℚ) : ℚ :=
  pos.getD 0 + lineHeight - spikesMargin

/-- From `RasterChart.tsx` `tooltipY` (lines 327-331): the tooltip's
y-coordinate, computed from `(scale(seriesName) || 0)` with an undefined
band lookup defaulting to `0`, flipped below the band when it would render
above the plot's upper edge. -/
def tooltipY (pos : Option ℚ) (marginTop padTop padBottom textHeight lineHeight : ℚ) : ℚ :=
  let y := pos.getD 0 + marginTop - padBottom - textHeight - padTop
  if 0 < y then y else y + padBottom + textHeight + padTop + lineHeight

theorem reconcile_eq (oldElems newData : List Datum) :
    reconcile oldElems newData = newData := by
  induction oldElems generalizing newData with
  | nil => simp [reconcile]
  | cons a l ih =>
    cases newData with
    | nil => simp [reconcile]
    | cons b m => simpa [reconcile] using ih m

theorem reconcile_nil (oldElems : List Datum) : reconcile oldElems [] = [] :=
  reconcile_eq oldElems []

/-- Claim C1: after a reconciliation pass of `updatePlot` for a time range
`[s, e]`, the datums bound to a series' rendered spike-line primitives are
exactly the series' datums with `s ≤ time ≤ e` — inclusive at both ends, no
more, no fewer — regardless of the previously rendered window. -/
theorem updateSeries_visible_set (prev : List Datum) (r : TimeRange) (s : Series) :
    updateSeries prev r s = s.data.filter (fun d => inTimeRange r d) ∧
      ∀ d : Datum, d ∈ updateSeries prev r s ↔
        d ∈ s.data ∧ r.start ≤ d.time ∧ d.time ≤ r.«end» := by
  refine ⟨reconcile_eq _ _, fun d => ?_⟩
  simp [updateSeries, reconcile_eq, List.mem_filter, inTimeRange]

/-- Claim C7: `translate(0)` and `scale(1, pivot)` are both the identity on
any time range. -/
theorem translate_zero_scale_one_id (r : TimeRange) (pivot : ℚ) :
    r.translate 0 = r ∧ r.scale 1 pivot = r := by
  cases r with
  | mk s e =>
    refine ⟨by simp [TimeRange.translate], ?_⟩
    simp only [TimeRange.scale, TimeRange.mk.injEq]
    constructor <;> ring

/-- Claim C4: `onPan(deltaX)` computes the time delta as the inverse scale of
`scale(start) + deltaX` minus `start` — which equals
`deltaX * (end - start) / plotWidth` — translates the range by its negation,
and therefore never changes the window width. -/
theorem onPan_translates_and_preserves_width (r : TimeRange) (plotWidth deltaX : ℚ) :
    (onPan r plotWidth deltaX).width = r.width ∧
      onPan r plotWidth deltaX =
        r.translate (-(xScaleInvert r plotWidth (xScaleMap r plotWidth r.start + deltaX)
          - r.start)) ∧
      onPan r plotWidth deltaX =
        r.translate (-(deltaX * (r.«end» - r.start) / plotWidth)) := by
  cases r with
  | mk s e =>
    refine ⟨?_, rfl, ?_⟩
    · simp only [onPan, TimeRange.translate, TimeRange.width]
      ring
    · simp only [onPan, TimeRange.translate, xScaleMap, xScaleInvert, TimeRange.mk.injEq]
      constructor <;> ring

theorem scale_preserves_order (r : TimeRange) (k pivot : ℚ) (hk : 0 ≤ k)
    (h : r.start ≤ r.«end») : (r.scale k pivot).start ≤ (r.scale k pivot).«end» := by
  simp only [TimeRange.scale]
  have h1 : (pivot - r.start) / k + (r.«end» - pivot) / k = (r.«end» - r.start) / k := by
    rw [div_add_div_same]; congr 1; ring
  have h2 : 0 ≤ (r.«end» - r.start) / k := div_nonneg (by linarith) hk
  linarith

theorem translate_preserves_order (r : TimeRange) (dt : ℚ)
    (h : r.start ≤ r.«end») : (r.translate dt).start ≤ (r.translate dt).«end» := by
  simp only [TimeRange.translate]
  linarith

/-- Claim C3: starting from any time range with `start ≤ end`, every sequence
of `scale(k, pivot)` steps with the gesture's factor `k` clamped to
`[0, 10]` and `translate(dt)` steps yields a range still satisfying
`start ≤ end`; no range with `start > end` is ever constructed. -/
theorem rangeOps_preserve_invariant (r0 : TimeRange) (ops : List RangeOp)
    (hr : r0.start ≤ r0.«end») (hops : ∀ op ∈ ops, validRangeOp op) :
    (ops.foldl applyRangeOp r0).start ≤ (ops.foldl applyRangeOp r0).«end» := by
  induction ops generalizing r0 with
  | nil => exact hr
  | cons op rest ih =>
    simp only [List.foldl_cons]
    refine ih (applyRangeOp r0 op) ?_ (fun o ho => hops o (List.mem_cons_of_mem _ ho))
    have hv : validRangeOp op := hops op (List.mem_cons_self _ _)
    cases op with
    | scaleOp k pivot => exact scale_preserves_order r0 k pivot hv.1 hr
    | translateOp dt => exact translate_preserves_order r0 dt hr

/-- Witness for C3: a zoom-in at pivot 5 with factor 2, a pan by −3, and a
degenerate zoom with the clamp's lower bound 0 all keep `start ≤ end` on the
initial range `[0, 10]`. -/
theorem rangeOps_preserve_invariant_witness :
    (([RangeOp.scaleOp 2 5, RangeOp.translateOp (-3),
        RangeOp.scaleOp 0 1].foldl applyRangeOp ⟨0, 10⟩).start ≤
      ([RangeOp.scaleOp 2 5, RangeOp.translateOp (-3),
        RangeOp.scaleOp 0 1].foldl applyRangeOp ⟨0, 10⟩).«end») :=
  rangeOps_preserve_invariant ⟨0, 10⟩ _ (by decide) (by decide)

/-- Counterexample for C2: the band y-scale is rebuilt from the current
`seriesList` on every `updatePlot` pass, so reordering the two series
`"a", "b"` (overall plot height 400, top margin 30) moves series `"a"` from
band position 0 to band position 185. -/
theorem yScale_reorder_moves_band :
    yScaleOf [⟨"a", []⟩, ⟨"b", []⟩] 400 30 "a" ≠
      yScaleOf [⟨"b", []⟩, ⟨"a", []⟩] 400 30 "a" := by
  have e1 : dedupFirst ["a", "b"] = ["a", "b"] := by decide
  have e2 : dedupFirst ["b", "a"] = ["b", "a"] := by decide
  have i1 : (["a", "b"] : List String).indexOf "a" = 0 := by decide
  have i2 : (["b", "a"] : List String).indexOf "a" = 1 := by decide
  simp only [yScaleOf, bandScale, spikeLineHeight, List.map, e1, e2, i1, i2]
  norm_num

/-- Claim C2 (amended): the band position of a series name is recomputed from
the current `seriesList` order on every update pass and depends only on the
sequence of series names, so streaming-appending datums to the series (names
and order unchanged) never changes any series' vertical position — but
reordering `seriesList` does move the bands to the new order's positions. -/
theorem yScale_stable_under_streamAppend (seriesList : List Series)
    (more : String → List Datum) (plotHeight marginTop : ℚ) (name : String) :
    yScaleOf (streamAppend seriesList more) plotHeight marginTop name =
      yScaleOf seriesList plotHeight marginTop name := by
  have hnames : List.map
      (Series.name ∘ fun s => ({ name := s.name, data := s.data ++ more s.name } : Series))
      seriesList = List.map Series.name seriesList := by
    induction seriesList with
    | nil => rfl
    | cons a l ih => simp only [List.map, Function.comp_apply, ih]
  simp only [yScaleOf, streamAppend, List.map_map, List.length_map]
  rw [hnames]

/-- Claim C5: toggling tooltip visibility at runtime takes immediate effect,
because the handlers read the current visibility through `tooltipRef` at
call time: with visibility off a hover adds no tooltip primitives; with it
back on a hover adds exactly one rectangle and two texts, and the following
mouse-leave removes all of them. -/
theorem tooltip_toggle_immediate (v0 : Bool) :
    (handleShowTooltip (setTooltipVisible false ⟨v0, []⟩)).prims = [] ∧
      (handleShowTooltip (setTooltipVisible true ⟨v0, []⟩)).prims =
        [TooltipPrim.rect, TooltipPrim.text, TooltipPrim.text] ∧
      (handleHideTooltip (handleShowTooltip (setTooltipVisible true ⟨v0, []⟩))).prims = [] := by
  simp [handleShowTooltip, handleHideTooltip, setTooltipVisible]

/-- Claim C8: an `updatePlot` pass over an empty `seriesList`, or over a
window containing no in-range datum, still draws both axes and renders no
spike primitive for any series in the scene; the pass is total, so no error
is raised. -/
theorem updatePlot_empty_window_safe (prev : String → List Datum) (r : TimeRange)
    (seriesList : List Series)
    (h : ∀ s ∈ seriesList, ∀ d ∈ s.data, inTimeRange r d = false) :
    (updatePlot prev r seriesList).xAxisDrawn = true ∧
      (updatePlot prev r seriesList).yAxisDrawn = true ∧
      ∀ p ∈ (updatePlot prev r seriesList).spikes, p.2 = [] := by
  refine ⟨rfl, rfl, fun p hp => ?_⟩
  simp only [updatePlot, List.mem_map] at hp
  obtain ⟨s, hs, rfl⟩ := hp
  have hf : s.data.filter (fun d => inTimeRange r d) = [] :=
    List.filter_eq_nil_iff.mpr (fun d hd => by simp [h s hs d hd])
  simp [updateSeries, hf, reconcile_nil]

/-- Witness for C8: one series `"a"` whose single datum at time 5 lies left
of the window `[10, 20]` — the pass draws the axes and renders no spikes. -/
theorem updatePlot_empty_window_safe_witness :
    (updatePlot (fun _ => []) ⟨10, 20⟩ [⟨"a", [⟨5, 1⟩]⟩]).xAxisDrawn = true ∧
      (updatePlot (fun _ => []) ⟨10, 20⟩ [⟨"a", [⟨5, 1⟩]⟩]).yAxisDrawn = true ∧
      ∀ p ∈ (updatePlot (fun _ => []) ⟨10, 20⟩ [⟨"a", [⟨5, 1⟩]⟩]).spikes, p.2 = [] :=
  updatePlot_empty_window_safe (fun _ => []) ⟨10, 20⟩ [⟨"a", [⟨5, 1⟩]⟩] (by decide)

theorem mem_dedupFirst (a : String) (l : List String) :
    a ∈ dedupFirst l ↔ a ∈ l := by
  induction l with
  | nil => simp [dedupFirst]
  | cons b m ih =>
    by_cases hab : a = b
    · subst hab; simp [dedupFirst]
    · simp [dedupFirst, List.mem_filter, hab, ih]

/-- Claim C9: a series name absent from the band y-scale's domain has no
band position, and each of the three lookup sites — grid-line placement,
spike vertical placement, and tooltip y-positioning — computes exactly the
value it would compute with the position `0`, so the missing lookup never
propagates an error. -/
theorem missing_band_lookup_defaults_to_zero (seriesList : List Series)
    (plotHeight marginTop : ℚ) (name : String)
    (h : name ∉ seriesList.map Series.name) :
    yScaleOf seriesList plotHeight marginTop name = none ∧
      ∀ lineHeight spikesMargin padTop padBottom textHeight : ℚ,
        gridLineY (yScaleOf seriesList plotHeight marginTop name) marginTop lineHeight =
          gridLineY (some 0) marginTop lineHeight ∧
        spikeY1 (yScaleOf seriesList plotHeight marginTop name) spikesMargin =
          spikeY1 (some 0) spikesMargin ∧
        spikeY2 (yScaleOf seriesList plotHeight marginTop name) lineHeight spikesMargin =
          spikeY2 (some 0) lineHeight spikesMargin ∧
        tooltipY (yScaleOf seriesList plotHeight marginTop name)
            marginTop padTop padBottom textHeight lineHeight =
          tooltipY (some 0) marginTop padTop padBottom textHeight lineHeight := by
  have hnone : yScaleOf seriesList plotHeight marginTop name = none := by
    simp only [yScaleOf, bandScale]
    rw [if_neg]
    rw [mem_dedupFirst]
    exact h
  refine ⟨hnone, fun lineHeight spikesMargin padTop padBottom textHeight => ?_⟩
  rw [hnone]
  refine ⟨rfl, rfl, rfl, rfl⟩

/-- Witness for C9: the name `"z"` is not among the single series `"a"`, its
band lookup is `none`, and all three sites compute the `0`-substituted
values. -/
theorem missing_band_lookup_defaults_to_zero_witness :
    yScaleOf [⟨"a", []⟩] 400 30 "z" = none ∧
      ∀ lineHeight spikesMargin padTop padBottom textHeight : ℚ,
        gridLineY (yScaleOf [⟨"a", []⟩] 400 30 "z") 30 lineHeight =
          gridLineY (some 0) 30 lineHeight ∧
        spikeY1 (yScaleOf [⟨"a", []⟩] 400 30 "z") spikesMargin =
          spikeY1 (some 0) spikesMargin ∧
        spikeY2 (yScaleOf [⟨"a", []⟩] 400 30 "z") lineHeight spikesMargin =
          spikeY2 (some 0) lineHeight spikesMargin ∧
        tooltipY (yScaleOf [⟨"a", []⟩] 400 30 "z") 30 padTop padBottom textHeight lineHeight =
          tooltipY (some 0) 30 padTop padBottom textHeight lineHeight :=
  missing_band_lookup_defaults_to_zero [⟨"a", []⟩] 400 30 "z" (by decide)

/-- Claim C10: the plot-area membership test is strict on all four borders:
a pointer exactly on the left, right, top, or bottom plot boundary is
outside the plot area, and the tracker line and magnifier lens are then set
to opacity 0. -/
theorem boundary_outside_plot_area (m : Margin) (width height x y : ℚ)
    (h : x = m.left ∨ x = width - m.right ∨ y = m.top ∨ y = height - m.bottom) :
    mouseInPlotArea m width height x y = false ∧
      trackerOpacity m width height x y = 0 ∧
      magnifierOpacity m width height x y = 0 := by
  have hm : mouseInPlotArea m width height x y = false := by
    rcases h with h | h | h | h <;> subst h <;>
      simp [mouseInPlotArea, lt_irrefl]
  exact ⟨hm, by simp [trackerOpacity, hm], by simp [magnifierOpacity, hm]⟩

/-- Witness for C10: with the default margins and a 900 × 460 chart, a
pointer at `x = 50` (exactly the left margin) is outside the plot area and
both overlays get opacity 0. -/
theorem boundary_outside_plot_area_witness :
    mouseInPlotArea ⟨30, 20, 30, 50⟩ 900 460 50 100 = false ∧
      trackerOpacity ⟨30, 20, 30, 50⟩ 900 460 50 100 = 0 ∧
      magnifierOpacity ⟨30, 20, 30, 50⟩ 900 460 50 100 = 0 :=
  boundary_outside_plot_area ⟨30, 20, 30, 50⟩ 900 460 50 100 (Or.inl rfl)

theorem magnify_magnification_eq (w p x0 x : ℚ) (hw : 0 < w) (hp : 1 ≤ p)
    (hd : |x - x0| ≤ w) :
    (magnify w p x0 x).magnification = p * w / (w + (p - 1) * |x - x0|) := by
  rcases lt_or_eq_of_le hd with hlt | heq
  · simp [magnify, not_le.mpr hlt]
  · have hpw : w + (p - 1) * |x - x0| = p * w := by rw [heq]; ring
    have hne : p * w ≠ 0 := by positivity
    simp [magnify, le_of_eq heq.symm, hpw, div_self hne]

theorem magnify_denom_pos (w p d : ℚ) (hw : 0 < w) (hp : 1 ≤ p) (hd : 0 ≤ d) :
    0 < w + (p - 1) * d := by
  have : 0 ≤ (p - 1) * d := mul_nonneg (by linarith) hd
  linarith

/-- Claim C6: for any lens half-width `w > 0`, power `p ≥ 1` and focal point
`x0`, `magnify` maps the focal point to itself with magnification `p`, maps
both lens edges `x0 ± w` to themselves with magnification `1`, and between
focus and edge the magnification decays monotonically with the distance from
the focus and stays within `[1, p]`. -/
theorem magnify_focus_edges_monotone (w p x0 : ℚ) (hw : 0 < w) (hp : 1 ≤ p) :
    magnify w p x0 x0 = ⟨x0, p⟩ ∧
      magnify w p x0 (x0 + w) = ⟨x0 + w, 1⟩ ∧
      magnify w p x0 (x0 - w) = ⟨x0 - w, 1⟩ ∧
      (∀ x1 x2 : ℚ, |x1 - x0| ≤ |x2 - x0| → |x2 - x0| ≤ w →
        (magnify w p x0 x2).magnification ≤ (magnify w p x0 x1).magnification) ∧
      (∀ x : ℚ, |x - x0| ≤ w →
        1 ≤ (magnify w p x0 x).magnification ∧ (magnify w p x0 x).magnification ≤ p) := by
  have hw0 : w ≠ 0 := ne_of_gt hw
  refine ⟨?_, ?_, ?_, ?_, ?_⟩
  · simp [magnify, not_le.mpr hw, mul_div_assoc, div_self hw0]
  · have h : w ≤ |x0 + w - x0| := by
      rw [show x0 + w - x0 = w by ring, abs_of_pos hw]
    simp only [magnify]
    rw [if_pos h]
  · have h : w ≤ |x0 - w - x0| := by
      rw [show x0 - w - x0 = -w by ring, abs_neg, abs_of_pos hw]
    simp only [magnify]
    rw [if_pos h]
  · intro x1 x2 h12 h2w
    have h1w : |x1 - x0| ≤ w := le_trans h12 h2w
    rw [magnify_magnification_eq w p x0 x1 hw hp h1w,
      magnify_magnification_eq w p x0 x2 hw hp h2w]
    refine div_le_div_of_nonneg_left (by positivity)
      (magnify_denom_pos w p _ hw hp (abs_nonneg _)) ?_
    have := mul_le_mul_of_nonneg_left h12 (show (0:ℚ) ≤ p - 1 by linarith)
    linarith
  · intro x hxw
    have hd0 : (0:ℚ) ≤ |x - x0| := abs_nonneg _
    have hden : 0 < w + (p - 1) * |x - x0| := magnify_denom_pos w p _ hw hp hd0
    rw [magnify_magnification_eq w p x0 x hw hp hxw]
    constructor
    · rw [le_div_iff₀ hden]
      have := mul_le_mul_of_nonneg_left hxw (show (0:ℚ) ≤ p - 1 by linarith)
      nlinarith
    · rw [div_le_iff₀ hden]
      have : 0 ≤ p * ((p - 1) * |x - x0|) :=
        mul_nonneg (le_trans zero_le_one hp) (mul_nonneg (by linarith) hd0)
      nlinarith

/-- Witness for C6: the lens with half-width 2, power 3 and focus 0
satisfies all the focal, edge, monotonicity and range properties. -/
theorem magnify_focus_edges_monotone_witness :
    (0:ℚ) < 2 ∧ (1:ℚ) ≤ 3 ∧
      (magnify 2 3 0 0 = ⟨0, 3⟩ ∧
        magnify 2 3 0 (0 + 2) = ⟨0 + 2, 1⟩ ∧
        magnify 2 3 0 (0 - 2) = ⟨0 - 2, 1⟩ ∧
        (∀ x1 x2 : ℚ, |x1 - 0| ≤ |x2 - 0| → |x2 - 0| ≤ 2 →
          (magnify 2 3 0 x2).magnification ≤ (magnify 2 3 0 x1).magnification) ∧
        (∀ x : ℚ, |x - 0| ≤ 2 →
          1 ≤ (magnify 2 3 0 x).magnification ∧ (magnify 2 3 0 x).magnification ≤ 3)) :=
  ⟨by decide, by decide, magnify_focus_edges_monotone 2 3 0 (by decide) (by decide)⟩

end StreamCharts
